import Mathlib

/-!
Verification of the COVID-19 Caribbean educational model
(graph construction, transient interaction edges, epidemic state machine,
multi-run aggregation), shallowly embedded from the Python sources
`src/graph.py`, `src/model.py`, `src/simulation.py`.

Conventions of the embedding:
* node ids are natural numbers;
* probabilities, edge weights and uniform draws are rationals in [0,1];
* Python dicts whose keys are filled progressively are functions into
  `Option`, `none` marking an absent key;
* randomness (uniform draws, sampled sets) is passed in explicitly, so every
  theorem quantifies over all possible random outcomes.
-/

namespace Covid

/-- The 7 compartments of `Model.STATES` in `model.py`:
Susceptible, Exposed, Asymptomatic, Symptomatic (I), Hospitalised, Dead,
Recovered. -/
inductive CState : Type
  | S | E | A | I | H | D | R
deriving DecidableEq, Repr

/-- The insertion order of `Model.STATES` (dict iteration order in Python). -/
def stateOrder : List CState :=
  [CState.S, CState.E, CState.A, CState.I, CState.H, CState.D, CState.R]

/-! ## Close-nodes matrix (`graph.py`: `_calculate_chebyshev_dist`,
`_set_close_nodes_arr`) -/

/-- Embeds `Graph._calculate_chebyshev_dist`: max of per-axis absolute
coordinate differences. -/
def calculateChebyshevDist (locationA locationB : ℤ × ℤ) : ℤ :=
  max (locationA.1 - locationB.1).natAbs (locationA.2 - locationB.2).natAbs

/-- Embeds `Graph._set_close_nodes_arr`: the matrix starts as zeros and the double
loop writes a 1 at `(node, other_node)` exactly when the two nodes are
distinct and their Chebyshev distance is at most the threshold; this function
is the resulting matrix entry. -/
def closeNodesArr (nNodes : ℕ) (location : ℕ → ℤ × ℤ) (threshold : ℤ)
    (node otherNode : ℕ) : ℕ :=
  if node < nNodes ∧ otherNode < nNodes ∧ node ≠ otherNode ∧
      calculateChebyshevDist (location otherNode) (location node) ≤ threshold
  then 1 else 0

/-! ## Graph construction node count (`graph.py`:
`_set_navigable_small_world_graph`) -/

/-- Embeds `math.ceil(math.sqrt n)`: the least `L` with `n ≤ L ^ 2`. -/
def ceilSqrt (n : ℕ) : ℕ :=
  if Nat.sqrt n * Nat.sqrt n = n then Nat.sqrt n else Nat.sqrt n + 1

/-- Total population: sum of the age-structure counts
(`num_people = sum(age_structure.values())`). -/
def numPeople (ageStructure : List (String × ℕ)) : ℕ :=
  (ageStructure.map Prod.snd).sum

/-- The grid node set of `nx.navigable_small_world_graph(L, ..., dim=2)`:
all `L × L` grid positions. -/
def gridNodes (sideLen : ℕ) : Finset (ℕ × ℕ) :=
  Finset.range sideLen ×ˢ Finset.range sideLen

/-- Embeds `_set_navigable_small_world_graph` after node removal: the grid minus the
randomly sampled `extra_nodes` (a set of size `L^2 - num_people`). -/
def remainingNodes (sideLen : ℕ) (extraNodes : Finset (ℕ × ℕ)) :
    Finset (ℕ × ℕ) :=
  gridNodes sideLen \ extraNodes

/-- Embeds `nx.convert_node_labels_to_integers`: the relabelled node set is the
integers `0 .. |remaining| - 1`. -/
def relabelledNodes (sideLen : ℕ) (extraNodes : Finset (ℕ × ℕ)) : Finset ℕ :=
  Finset.range (remainingNodes sideLen extraNodes).card

/-! ## Edges: permanent lattice edges and transient interaction edges
(`graph.py`: `_add_new_interaction_edge`, `remove_group_interaction_edges`,
`_set_generic_weights`) -/

/-- One edge record of the `networkx` graph: endpoints, `weight` attribute,
and whether the `interaction_edge` attribute is present. -/
structure EdgeRec : Type where
  endA : ℕ
  endB : ℕ
  weight : ℚ
  interaction : Bool
deriving DecidableEq, Repr

/-- Embeds `networkx` `has_edge` on an undirected graph: either orientation. -/
def hasEdge (edges : List EdgeRec) (a b : ℕ) : Bool :=
  edges.any (fun e => (e.endA = a ∧ e.endB = b) ∨ (e.endA = b ∧ e.endB = a))

/-- Embeds `Graph._add_new_interaction_edge`: add the pair with
`weight = infection_rate` and the `interaction_edge` attribute, unless an
edge (lattice or transient) already joins the pair. -/
def addNewInteractionEdge (infectionRate : ℚ) (edges : List EdgeRec)
    (pair : ℕ × ℕ) : List EdgeRec :=
  if hasEdge edges pair.1 pair.2 then edges
  else edges ++ [⟨pair.1, pair.2, infectionRate, true⟩]

/-- Embeds `Graph.remove_group_interaction_edges`: remove every edge carrying the
`interaction_edge` attribute. -/
def removeGroupInteractionEdges (edges : List EdgeRec) : List EdgeRec :=
  edges.filter (fun e => !e.interaction)

/-- Embeds `Graph._set_generic_weights`: `nx.set_edge_attributes` writes
`weight = infection_rate` on every edge. -/
def setGenericWeights (infectionRate : ℚ) (edges : List EdgeRec) :
    List EdgeRec :=
  edges.map (fun e => { e with weight := infectionRate })

/-- The mutable pieces of a `Graph` object touched during a simulation run:
the edge list, the precomputed close-nodes matrix and the infection rate. -/
structure GraphState : Type where
  edges : List EdgeRec
  closeNodes : ℕ → ℕ → ℕ
  infectionRate : ℚ

/-- Embeds `_add_new_interaction_edge` as an operation on the graph object. -/
def addEdgeOp (g : GraphState) (pair : ℕ × ℕ) : GraphState :=
  { g with edges := addNewInteractionEdge g.infectionRate g.edges pair }

/-- Embeds `remove_group_interaction_edges` as an operation on the graph object. -/
def removeEdgesOp (g : GraphState) : GraphState :=
  { g with edges := removeGroupInteractionEdges g.edges }

/-! ## Epidemic state machine (`model.py`)

A timestep's states (`states_dict[t]`) is a Python dict from node to state;
we embed it as `ℕ → Option CState`, `none` marking a node absent from the
dict.  The graph seen by one timestep (lattice plus that timestep's
transient interaction edges) is a `SimGraph`. -/

/-- The view of the graph that the state machine reads during one timestep:
node list, adjacency lists, edge weights and node age groups. -/
structure SimGraph : Type where
  nodes : List ℕ
  adj : ℕ → List ℕ
  weight : ℕ → ℕ → ℚ
  ageGroup : ℕ → String

/-- A transition distribution (`state_transitions[state]` in `params.py`):
an ordered dict from target state to per-age-group probability. -/
def Distrib : Type := List (CState × (String → ℚ))

/-- Python `min(distrib.keys())`: the keys are the one-letter state names,
so the minimum is taken in alphabetical order of the letters
(A < D < E < H < I < R < S); `none` on an empty dict (a `ValueError`). -/
def stateMinRank : CState → ℕ
  | CState.A => 0
  | CState.D => 1
  | CState.E => 2
  | CState.H => 3
  | CState.I => 4
  | CState.R => 5
  | CState.S => 6

/-- Minimum key of a distribution, per `min(distrib.keys())`. -/
def minKey : Distrib → Option CState
  | [] => none
  | (v, _) :: rest =>
      some (rest.foldl
        (fun best vp => if stateMinRank vp.1 < stateMinRank best then vp.1 else best)
        v)

/-- The loop of `Model._choose_from_distrib`: walk the distribution in dict
order accumulating `curr_sum`, returning the first value whose cumulative
probability reaches the draw (`max_sum <= curr_sum`); when the loop ends the
fallback is used. -/
def chooseGo (ageGroup : String) (maxSum : ℚ) (fallback : Option CState) :
    ℚ → Distrib → Option CState
  | _, [] => fallback
  | currSum, (value, p) :: rest =>
      if maxSum ≤ currSum + p ageGroup then some value
      else chooseGo ageGroup maxSum fallback (currSum + p ageGroup) rest

/-- Embeds `Model._choose_from_distrib` with the uniform draw `maxSum` made
explicit; `none` embeds the crash of `min` on an empty dict. -/
def chooseFromDistrib (ageGroup : String) (distrib : Distrib) (maxSum : ℚ) :
    Option CState :=
  chooseGo ageGroup maxSum (minKey distrib) 0 distrib

/-- A Python dict write `d[k] = v` on a dict embedded as a function. -/
def updMap (m : ℕ → Option CState) (k : ℕ) (v : Option CState) :
    ℕ → Option CState :=
  fun x => if x = k then v else m x

/-- The value `Model._do_progression` writes to `states_dict[next_time][node]`:
states outside {R, D, S} progress through `_choose_from_distrib` on
`state_transitions[state]`, states in {R, D, S} are copied forward.
A node absent from the current dict (`KeyError` in Python) yields `none`. -/
def progressionValue (stateTransitions : CState → Distrib) (g : SimGraph)
    (cur : ℕ → Option CState) (progDraw : ℕ → ℚ) (node : ℕ) : Option CState :=
  match cur node with
  | none => none
  | some state =>
      if state ∉ [CState.R, CState.D, CState.S] then
        chooseFromDistrib (g.ageGroup node) (stateTransitions state)
          (progDraw node)
      else some state

/-- The pass `list(map(self._do_progression, nodes))`: starting from the empty
dict `states_dict[next_time]`, write every node's progression value. -/
def progressionPass (stateTransitions : CState → Distrib) (g : SimGraph)
    (cur : ℕ → Option CState) (progDraw : ℕ → ℚ) : ℕ → Option CState :=
  g.nodes.foldl
    (fun acc node =>
      updMap acc node (progressionValue stateTransitions g cur progDraw node))
    (fun _ => none)

/-- Embeds `Model._infect_neighbours`: if the neighbour is susceptible at the current
time and the uniform draw is at most the edge weight, write `E` for the
neighbour at the next time. -/
def infectNeighbour (g : SimGraph) (cur : ℕ → Option CState)
    (infDraw : ℕ → ℕ → ℚ) (node : ℕ) (acc : ℕ → Option CState)
    (neighbour : ℕ) : ℕ → Option CState :=
  if cur neighbour = some CState.S then
    if infDraw node neighbour ≤ g.weight node neighbour then
      updMap acc neighbour (some CState.E)
    else acc
  else acc

/-- Embeds `Model._do_infection`: a node infectious (I or A) at the current time maps
`_infect_neighbours` over its adjacency list. -/
def doInfection (g : SimGraph) (cur : ℕ → Option CState)
    (infDraw : ℕ → ℕ → ℚ) (acc : ℕ → Option CState) (node : ℕ) :
    ℕ → Option CState :=
  if cur node = some CState.I ∨ cur node = some CState.A then
    (g.adj node).foldl (infectNeighbour g cur infDraw node) acc
  else acc

/-- The pass `list(map(self._do_infection, nodes))`, run after the progression
pass on the same next-time dict. -/
def infectionPass (g : SimGraph) (cur : ℕ → Option CState)
    (infDraw : ℕ → ℕ → ℚ) (acc : ℕ → Option CState) : ℕ → Option CState :=
  g.nodes.foldl (doInfection g cur infDraw) acc

/-- One timestep of `Model.basic_simulation`'s loop: the progression pass over
all nodes, then the infection pass over all nodes, both reading the
current-time snapshot `cur`. -/
def stepStates (stateTransitions : CState → Distrib) (g : SimGraph)
    (progDraw : ℕ → ℚ) (infDraw : ℕ → ℕ → ℚ) (cur : ℕ → Option CState) :
    ℕ → Option CState :=
  infectionPass g cur infDraw (progressionPass stateTransitions g cur progDraw)

/-- Embeds `Model._make_states_dict` plus the seeding loop of `basic_simulation`:
every graph node starts susceptible at timestep 0, then the sampled
`infected` nodes are overwritten with `I`. -/
def initialStates (nodes : List ℕ) (infected : List ℕ) : ℕ → Option CState :=
  infected.foldl (fun acc v => updMap acc v (some CState.I))
    (fun v => if v ∈ nodes then some CState.S else none)

/-- The full state timeline of `basic_simulation`: `graphAt t` is the graph
seen during timestep `t` (lattice plus that timestep's transient interaction
edges), `progDraw t` / `infDraw t` are that timestep's uniform draws. -/
def statesDict (stateTransitions : CState → Distrib) (graphAt : ℕ → SimGraph)
    (progDraw : ℕ → ℕ → ℚ) (infDraw : ℕ → ℕ → ℕ → ℚ)
    (init : ℕ → Option CState) : ℕ → ℕ → Option CState
  | 0 => init
  | t + 1 =>
      stepStates stateTransitions (graphAt t) (progDraw t) (infDraw t)
        (statesDict stateTransitions graphAt progDraw infDraw init t)

/-- Embeds `Counter(states_dict[time].values())[state]`: the number of nodes of the
graph holding `state` in the given timestep dict. -/
def countState (sd : ℕ → Option CState) (nodes : List ℕ) (state : CState) :
    ℕ :=
  (nodes.filter (fun v => sd v = some state)).length

/-- The reporting steps of `Model.get_results`:
`range(1, time_horizon + 1, 7)`, i.e. `1 + 7 * k` for
`k < ⌈time_horizon / 7⌉`. -/
def reportSteps (timeHorizon : ℕ) : List ℕ :=
  (List.range ((timeHorizon + 6) / 7)).map (fun k => 1 + 7 * k)

/-- Embeds `Model.get_results`: one count list per compartment, with one entry per
reporting step. -/
def getResults (sd : ℕ → ℕ → Option CState) (nodes : List ℕ)
    (timeHorizon : ℕ) (state : CState) : List ℕ :=
  (reportSteps timeHorizon).map (fun step => countState (sd step) nodes state)

/-! ## Write sets of the two passes (for the pass-partition property) -/

/-- The nodes written by the progression pass: `_do_progression` writes
`states_dict[next_time][node]` in both of its branches, so the pass writes
exactly the iterated node list. -/
def progressionWriteList (g : SimGraph) : List ℕ :=
  g.nodes

/-- The nodes written by the infection pass, collected by replaying its two
nested loops: a write happens at `neighbour` exactly when the outer node is
infectious, the neighbour is susceptible and the draw is at most the edge
weight. -/
def infectionWriteList (g : SimGraph) (cur : ℕ → Option CState)
    (infDraw : ℕ → ℕ → ℚ) : List ℕ :=
  g.nodes.foldl
    (fun acc node =>
      if cur node = some CState.I ∨ cur node = some CState.A then
        (g.adj node).foldl
          (fun acc2 neighbour =>
            if cur neighbour = some CState.S ∧
                infDraw node neighbour ≤ g.weight node neighbour then
              acc2 ++ [neighbour]
            else acc2)
          acc
      else acc)
    []

/-! ## Multi-run aggregation (`simulation.py`: `Simulation.run_multiple`) -/

/-- Embeds `int(np.round(total / n))` for a sum `total` of `n` nonnegative integers:
round the exact mean half to even (IEEE rounding of `np.round`). -/
def roundHalfEven (total n : ℕ) : ℕ :=
  let q := total / n
  let r := total % n
  if 2 * r < n then q
  else if n < 2 * r then q + 1
  else if q % 2 = 0 then q else q + 1

/-- Length of `zip(*state_lists)`: the minimum list length (0 when there are
no lists). -/
def zipLen : List (List ℕ) → ℕ
  | [] => 0
  | l :: rest => rest.foldl (fun m l2 => min m l2.length) l.length

/-- The averaging loop of `run_multiple`: for each compartment, the entrywise
rounded mean of the per-run count lists (entries beyond `zip` truncation are
dropped). -/
def averagedRuns (runs : List (CState → List ℕ)) (state : CState) : List ℤ :=
  (List.range (zipLen (runs.map (fun results => results state)))).map
    (fun k =>
      (roundHalfEven
        (((runs.map (fun results => results state)).map
          (fun l => l.getD k 0)).sum)
        runs.length : ℤ))

/-- Embeds `max(states_at_timestep, key=states_at_timestep.get)`: the first
compartment, in `Model.STATES` iteration order, holding the maximal count
(Python's `max` keeps the earlier key on ties). -/
def biggestState (val : CState → ℤ) : CState :=
  [CState.E, CState.A, CState.I, CState.H, CState.D, CState.R].foldl
    (fun best s => if val best < val s then s else best) CState.S

/-- One iteration of the conservation-repair loop of `run_multiple`: if the
7-compartment total at this reporting step differs from the population size,
add the signed difference to the biggest compartment's entry. -/
def repairAt (populationSize : ℤ) (averaged : CState → List ℤ)
    (timestep : ℕ) : CState → List ℤ :=
  let total := (stateOrder.map (fun s => (averaged s).getD timestep 0)).sum
  if total ≠ populationSize then
    let biggest := biggestState (fun s => (averaged s).getD timestep 0)
    fun s =>
      if s = biggest then
        (averaged s).set timestep
          ((averaged s).getD timestep 0 + (populationSize - total))
      else averaged s
  else averaged

/-- Embeds `Simulation.run_multiple` after the per-run simulations: average the run
results, then run the conservation repair for
`timestep in range(time_horizon // 7)`. -/
def runMultiple (populationSize : ℤ) (timeHorizon : ℕ)
    (runs : List (CState → List ℕ)) : CState → List ℤ :=
  (List.range (timeHorizon / 7)).foldl (repairAt populationSize)
    (averagedRuns runs)

/-! ## Reload validation (`simulation.py`: `Simulation.load_graph_from_file`) -/

/-- The graph constructor configuration (`graph_config`), compared for
equality on reload. -/
structure GraphConfig : Type where
  shortConnectionDiameter : ℕ
  longConnectionDiameter : ℕ
  decay : ℚ
  closenessThreshold : ℤ
deriving DecidableEq, Repr

/-- The fields of a pickled `Graph` object that `load_graph_from_file`
inspects (`nodeCount` is `len(loaded_graph.graph.nodes)`). -/
structure SavedGraph : Type where
  graphConfig : GraphConfig
  timeHorizon : ℕ
  numInfected : ℕ
  nodeCount : ℕ
  infectionRate : ℚ
deriving DecidableEq, Repr

/-- The `Simulation` fields read by `load_graph_from_file`: the current graph
slot and the configured population size and generic infection rate. -/
structure SimulationState : Type where
  graph : SavedGraph
  populationSize : ℕ
  genericInfection : ℚ
deriving DecidableEq, Repr

/-- Embeds `Simulation.load_graph_from_file` after unpickling: validate the five
fields against the current configuration; on success replace the graph, on
failure raise (the exception carries no new state, so the caller's current
graph is untouched). -/
def loadGraphFromFile (sim : SimulationState) (loaded : SavedGraph) :
    Except String SimulationState :=
  let validConfig := loaded.graphConfig = sim.graph.graphConfig
  let validTime := loaded.timeHorizon = sim.graph.timeHorizon
  let validInfected := loaded.numInfected = sim.graph.numInfected
  let validPopulation := loaded.nodeCount = sim.populationSize
  let validInfectionRate := loaded.infectionRate = sim.genericInfection
  if validConfig ∧ validTime ∧ validInfected ∧ validPopulation ∧
      validInfectionRate then
    Except.ok { sim with graph := loaded }
  else
    Except.error ("The graph to be loaded does not adhere to the graph configuration")

/-! ## Lemmas about edges -/

lemma removeGroupInteractionEdges_add (rate : ℚ) (es : List EdgeRec)
    (pair : ℕ × ℕ) :
    removeGroupInteractionEdges (addNewInteractionEdge rate es pair) =
      removeGroupInteractionEdges es := by
  unfold addNewInteractionEdge
  split
  · rfl
  · simp [removeGroupInteractionEdges, List.filter_append]

lemma removeGroupInteractionEdges_foldl (rate : ℚ) (pairs : List (ℕ × ℕ))
    (es : List EdgeRec) :
    removeGroupInteractionEdges (pairs.foldl (addNewInteractionEdge rate) es) =
      removeGroupInteractionEdges es := by
  induction pairs generalizing es with
  | nil => rfl
  | cons p rest ih =>
      rw [List.foldl_cons, ih, removeGroupInteractionEdges_add]

lemma removeGroupInteractionEdges_eq_self (es : List EdgeRec)
    (h : ∀ e ∈ es, e.interaction = false) :
    removeGroupInteractionEdges es = es := by
  rw [removeGroupInteractionEdges, List.filter_eq_self]
  intro e he
  simp [h e he]

/-- Claim C6: at the end of a timestep, removing the interaction-flagged
edges restores exactly the lattice edge list that existed before any
interaction edges were added: no lattice edge is removed, no lattice weight
changes, and no transient edge survives. -/
theorem edge_removal_restores_lattice (rate : ℚ) (lattice : List EdgeRec)
    (pairs : List (ℕ × ℕ)) (hlat : ∀ e ∈ lattice, e.interaction = false) :
    removeGroupInteractionEdges
        (pairs.foldl (addNewInteractionEdge rate) lattice) = lattice := by
  rw [removeGroupInteractionEdges_foldl,
    removeGroupInteractionEdges_eq_self lattice hlat]

/-- Witness for C6 on a one-edge lattice and two added interaction pairs. -/
theorem edge_removal_restores_lattice_witness :
    removeGroupInteractionEdges
        ([(1, 2), (0, 1)].foldl (addNewInteractionEdge 1)
          [EdgeRec.mk 0 1 1 false]) = [EdgeRec.mk 0 1 1 false] :=
  edge_removal_restores_lattice 1 [EdgeRec.mk 0 1 1 false] [(1, 2), (0, 1)]
    (by decide)

/-- Claim C10: lattice edges are initialised with `weight = infection_rate`,
new interaction edges are created with that same weight, and neither edge
operation modifies an existing edge's weight — so every edge always carries
the configured generic infection rate. -/
theorem edge_weights_always_infection_rate (rate : ℚ) :
    (∀ es : List EdgeRec, ∀ e ∈ setGenericWeights rate es, e.weight = rate)
    ∧ (∀ (g : GraphState) (pair : ℕ × ℕ), g.infectionRate = rate →
        (∀ e ∈ g.edges, e.weight = rate) →
        ∀ e ∈ (addEdgeOp g pair).edges, e.weight = rate)
    ∧ (∀ g : GraphState, (∀ e ∈ g.edges, e.weight = rate) →
        ∀ e ∈ (removeEdgesOp g).edges, e.weight = rate) := by
  refine ⟨?_, ?_, ?_⟩
  · intro es e he
    simp only [setGenericWeights, List.mem_map] at he
    obtain ⟨a, _, rfl⟩ := he
    rfl
  · intro g pair hrate hall e he
    simp only [addEdgeOp, addNewInteractionEdge] at he
    split at he
    · exact hall e he
    · rcases List.mem_append.1 he with h | h
      · exact hall e h
      · simp only [List.mem_singleton] at h
        subst h
        exact hrate
  · intro g hall e he
    simp only [removeEdgesOp, removeGroupInteractionEdges] at he
    exact hall e (List.mem_of_mem_filter he)

/-- Witness for C10: a freshly added interaction edge carries the configured
rate. -/
theorem edge_weights_always_infection_rate_witness :
    (EdgeRec.mk 0 1 1 true).weight = 1 :=
  (edge_weights_always_infection_rate 1).2.1
    ⟨[], fun _ _ => 0, 1⟩ (0, 1) rfl (by decide)
    (EdgeRec.mk 0 1 1 true) (by decide)

/-! ## Lemmas about graph construction -/

lemma le_ceilSqrt_sq (n : ℕ) : n ≤ ceilSqrt n ^ 2 := by
  by_cases h : Nat.sqrt n * Nat.sqrt n = n
  · simp [ceilSqrt, h, pow_two]
  · simp only [ceilSqrt, h, if_false, pow_two]
    exact (Nat.lt_succ_sqrt n).le

lemma gridNodes_card (sideLen : ℕ) :
    (gridNodes sideLen).card = sideLen ^ 2 := by
  simp [gridNodes, pow_two, Finset.card_product]

/-- Claim C7: for an age structure summing to `N ≥ 1`, after removing the
sampled extra grid nodes the graph has exactly `N` nodes (not the
`ceil(sqrt N)²` grid count), and relabelling yields node labels exactly
`0, …, N − 1`. -/
theorem create_graph_exact_population (ageStructure : List (String × ℕ))
    (extra : Finset (ℕ × ℕ))
    (hN : 1 ≤ numPeople ageStructure)
    (hsub : extra ⊆ gridNodes (ceilSqrt (numPeople ageStructure)))
    (hcard : extra.card =
      ceilSqrt (numPeople ageStructure) ^ 2 - numPeople ageStructure) :
    (remainingNodes (ceilSqrt (numPeople ageStructure)) extra).card =
        numPeople ageStructure
      ∧ relabelledNodes (ceilSqrt (numPeople ageStructure)) extra =
        Finset.range (numPeople ageStructure) := by
  have hc :
      (remainingNodes (ceilSqrt (numPeople ageStructure)) extra).card =
        numPeople ageStructure := by
    rw [remainingNodes, Finset.card_sdiff hsub, gridNodes_card, hcard]
    have := le_ceilSqrt_sq (numPeople ageStructure)
    omega
  exact ⟨hc, by rw [relabelledNodes, hc]⟩

lemma numPeople_x9 : numPeople [("x", 9)] = 9 := rfl

lemma ceilSqrt_nine : ceilSqrt 9 = 3 := by
  have h : Nat.sqrt 9 = 3 := by
    rw [show (9 : ℕ) = 3 ^ 2 from rfl, Nat.sqrt_eq']
  simp [ceilSqrt, h]

/-- Witness for C7: the 9-person single-age-group population of the spec's
Example C (grid side 3, no deletions needed). -/
theorem create_graph_exact_population_witness :
    (remainingNodes (ceilSqrt (numPeople [("x", 9)])) ∅).card =
        numPeople [("x", 9)]
      ∧ relabelledNodes (ceilSqrt (numPeople [("x", 9)])) ∅ =
        Finset.range (numPeople [("x", 9)]) :=
  create_graph_exact_population [("x", 9)] ∅ (by decide)
    (Finset.empty_subset _)
    (by rw [numPeople_x9, ceilSqrt_nine]; decide)

/-! ## Lemmas about the close-nodes matrix -/

lemma calculateChebyshevDist_comm (a b : ℤ × ℤ) :
    calculateChebyshevDist a b = calculateChebyshevDist b a := by
  simp [calculateChebyshevDist, abs_sub_comm]

/-- Claim C9: the close-nodes matrix is symmetric with zero diagonal, its
off-diagonal entries are 1 exactly when the Chebyshev distance between the
grid locations is at most the threshold, and the simulation's edge
operations never modify it. -/
theorem close_nodes_matrix_props (n : ℕ) (loc : ℕ → ℤ × ℤ) (t : ℤ) :
    (∀ i j, closeNodesArr n loc t i j = closeNodesArr n loc t j i)
    ∧ (∀ i, closeNodesArr n loc t i i = 0)
    ∧ (∀ i j, i < n → j < n → i ≠ j →
        (closeNodesArr n loc t i j = 1 ↔
          calculateChebyshevDist (loc j) (loc i) ≤ t))
    ∧ (∀ (g : GraphState) (pair : ℕ × ℕ),
        (addEdgeOp g pair).closeNodes = g.closeNodes ∧
        (removeEdgesOp g).closeNodes = g.closeNodes) := by
  refine ⟨?_, ?_, ?_, ?_⟩
  · intro i j
    unfold closeNodesArr
    refine if_congr ?_ rfl rfl
    rw [calculateChebyshevDist_comm (loc j) (loc i)]
    constructor
    · rintro ⟨h1, h2, h3, h4⟩
      exact ⟨h2, h1, h3.symm, h4⟩
    · rintro ⟨h1, h2, h3, h4⟩
      exact ⟨h2, h1, h3.symm, h4⟩
  · intro i
    simp [closeNodesArr]
  · intro i j hi hj hij
    simp [closeNodesArr, hi, hj, hij]
  · intro g pair
    exact ⟨rfl, rfl⟩

/-- Claim C8: the reload validation raises exactly when at least one of the
five checked fields differs from the current configuration; on acceptance the
loaded graph replaces the simulation's graph (all other fields unchanged),
and on rejection only an exception is produced, so the current graph slot is
untouched. -/
theorem reload_validation_iff (sim : SimulationState) (loaded : SavedGraph) :
    ((∃ msg, loadGraphFromFile sim loaded = Except.error msg) ↔
      ¬ (loaded.graphConfig = sim.graph.graphConfig ∧
         loaded.timeHorizon = sim.graph.timeHorizon ∧
         loaded.numInfected = sim.graph.numInfected ∧
         loaded.nodeCount = sim.populationSize ∧
         loaded.infectionRate = sim.genericInfection))
    ∧ (loadGraphFromFile sim loaded =
          Except.ok { sim with graph := loaded } ∨
        ∃ msg, loadGraphFromFile sim loaded = Except.error msg) := by
  by_cases h : loaded.graphConfig = sim.graph.graphConfig ∧
      loaded.timeHorizon = sim.graph.timeHorizon ∧
      loaded.numInfected = sim.graph.numInfected ∧
      loaded.nodeCount = sim.populationSize ∧
      loaded.infectionRate = sim.genericInfection
  · constructor
    · simp [loadGraphFromFile, h]
    · left
      simp [loadGraphFromFile, h]
  · constructor
    · simp [loadGraphFromFile, h]
    · right
      simp [loadGraphFromFile, h]

/-- Witness for C8: loading a graph whose time horizon differs is rejected. -/
theorem reload_validation_witness :
    (∃ msg,
        loadGraphFromFile
            ⟨⟨⟨1, 2, 1, 1⟩, 10, 5, 100, 1⟩, 100, 1⟩
            ⟨⟨1, 2, 1, 1⟩, 20, 5, 100, 1⟩ =
          Except.error msg) ↔
      ¬ ((⟨⟨1, 2, 1, 1⟩, 20, 5, 100, 1⟩ : SavedGraph).graphConfig =
            (⟨⟨⟨1, 2, 1, 1⟩, 10, 5, 100, 1⟩, 100, 1⟩ :
              SimulationState).graph.graphConfig ∧
          (⟨⟨1, 2, 1, 1⟩, 20, 5, 100, 1⟩ : SavedGraph).timeHorizon =
            (⟨⟨⟨1, 2, 1, 1⟩, 10, 5, 100, 1⟩, 100, 1⟩ :
              SimulationState).graph.timeHorizon ∧
          (⟨⟨1, 2, 1, 1⟩, 20, 5, 100, 1⟩ : SavedGraph).numInfected =
            (⟨⟨⟨1, 2, 1, 1⟩, 10, 5, 100, 1⟩, 100, 1⟩ :
              SimulationState).graph.numInfected ∧
          (⟨⟨1, 2, 1, 1⟩, 20, 5, 100, 1⟩ : SavedGraph).nodeCount =
            (⟨⟨⟨1, 2, 1, 1⟩, 10, 5, 100, 1⟩, 100, 1⟩ :
              SimulationState).populationSize ∧
          (⟨⟨1, 2, 1, 1⟩, 20, 5, 100, 1⟩ : SavedGraph).infectionRate =
            (⟨⟨⟨1, 2, 1, 1⟩, 10, 5, 100, 1⟩, 100, 1⟩ :
              SimulationState).genericInfection) :=
  (reload_validation_iff ⟨⟨⟨1, 2, 1, 1⟩, 10, 5, 100, 1⟩, 100, 1⟩
    ⟨⟨1, 2, 1, 1⟩, 20, 5, 100, 1⟩).1

/-- Witness for C9: two nodes at unit distance with threshold 1. -/
theorem close_nodes_matrix_witness :
    closeNodesArr 2 (fun v => ((v : ℤ), 0)) 1 0 1 = 1 ↔
      calculateChebyshevDist ((1 : ℤ), (0 : ℤ)) ((0 : ℤ), (0 : ℤ)) ≤ 1 :=
  (close_nodes_matrix_props 2 (fun v => ((v : ℤ), 0)) 1).2.2.1 0 1
    (by decide) (by decide) (by decide)

/-! ## Evaluation lemmas for the two passes -/

lemma foldl_updMap_eval (f : ℕ → Option CState) (l : List ℕ)
    (m : ℕ → Option CState) (v : ℕ) :
    (l.foldl (fun acc node => updMap acc node (f node)) m) v =
      if v ∈ l then f v else m v := by
  induction l generalizing m with
  | nil => simp
  | cons a rest ih =>
      rw [List.foldl_cons, ih]
      by_cases hv : v ∈ rest
      · simp [hv]
      · by_cases hva : v = a
        · subst hva
          simp [hv, updMap]
        · simp [hv, hva, updMap]

lemma progressionPass_eval (stateTransitions : CState → Distrib)
    (g : SimGraph) (cur : ℕ → Option CState) (progDraw : ℕ → ℚ) (v : ℕ) :
    progressionPass stateTransitions g cur progDraw v =
      if v ∈ g.nodes then
        progressionValue stateTransitions g cur progDraw v
      else none :=
  foldl_updMap_eval _ g.nodes _ v

lemma infectNeighbour_ne (g : SimGraph) (cur : ℕ → Option CState)
    (infDraw : ℕ → ℕ → ℚ) (node : ℕ) (acc : ℕ → Option CState)
    (b v : ℕ) (hvb : v ≠ b) :
    infectNeighbour g cur infDraw node acc b v = acc v := by
  unfold infectNeighbour
  split
  · split
    · simp [updMap, hvb]
    · rfl
  · rfl

lemma infectNeighbour_self (g : SimGraph) (cur : ℕ → Option CState)
    (infDraw : ℕ → ℕ → ℚ) (node : ℕ) (acc : ℕ → Option CState) (b : ℕ) :
    infectNeighbour g cur infDraw node acc b b =
      if cur b = some CState.S ∧ infDraw node b ≤ g.weight node b then
        some CState.E
      else acc b := by
  unfold infectNeighbour
  by_cases h1 : cur b = some CState.S
  · by_cases h2 : infDraw node b ≤ g.weight node b
    · simp [h1, h2, updMap]
    · simp [h1, h2]
  · simp [h1]

lemma infect_foldl_eval (g : SimGraph) (cur : ℕ → Option CState)
    (infDraw : ℕ → ℕ → ℚ) (node : ℕ) (l : List ℕ)
    (acc : ℕ → Option CState) (v : ℕ) :
    (l.foldl (infectNeighbour g cur infDraw node) acc) v =
      if cur v = some CState.S ∧ v ∈ l ∧
          infDraw node v ≤ g.weight node v then some CState.E
      else acc v := by
  induction l generalizing acc with
  | nil => simp
  | cons b rest ih =>
      rw [List.foldl_cons, ih]
      by_cases hvb : v = b
      · subst hvb
        rw [infectNeighbour_self]
        by_cases hS : cur v = some CState.S <;>
          by_cases hd : infDraw node v ≤ g.weight node v <;>
          by_cases hr : v ∈ rest <;>
          simp [hS, hd, hr]
      · rw [infectNeighbour_ne g cur infDraw node acc b v hvb]
        by_cases hS : cur v = some CState.S <;>
          by_cases hd : infDraw node v ≤ g.weight node v <;>
          by_cases hr : v ∈ rest <;>
          simp [hS, hd, hr, hvb]

lemma doInfection_eval (g : SimGraph) (cur : ℕ → Option CState)
    (infDraw : ℕ → ℕ → ℚ) (acc : ℕ → Option CState) (b v : ℕ) :
    doInfection g cur infDraw acc b v =
      if (cur b = some CState.I ∨ cur b = some CState.A) ∧
          cur v = some CState.S ∧ v ∈ g.adj b ∧
          infDraw b v ≤ g.weight b v then some CState.E
      else acc v := by
  unfold doInfection
  by_cases hb : cur b = some CState.I ∨ cur b = some CState.A
  · rw [if_pos hb, infect_foldl_eval]
    by_cases hS : cur v = some CState.S <;>
      by_cases hm : v ∈ g.adj b <;>
      by_cases hd : infDraw b v ≤ g.weight b v <;>
      simp [hb, hS, hm, hd]
  · simp [hb]

lemma infection_foldl_eval (g : SimGraph) (cur : ℕ → Option CState)
    (infDraw : ℕ → ℕ → ℚ) (l : List ℕ) (acc : ℕ → Option CState) (v : ℕ) :
    (l.foldl (doInfection g cur infDraw) acc) v =
      if cur v = some CState.S ∧ ∃ u ∈ l,
          (cur u = some CState.I ∨ cur u = some CState.A) ∧ v ∈ g.adj u ∧
          infDraw u v ≤ g.weight u v then some CState.E
      else acc v := by
  induction l generalizing acc with
  | nil => simp
  | cons b rest ih =>
      rw [List.foldl_cons, ih]
      by_cases hS : cur v = some CState.S
      · by_cases hrest : ∃ u ∈ rest,
            (cur u = some CState.I ∨ cur u = some CState.A) ∧ v ∈ g.adj u ∧
            infDraw u v ≤ g.weight u v
        · have hcons : ∃ u ∈ b :: rest,
              (cur u = some CState.I ∨ cur u = some CState.A) ∧ v ∈ g.adj u ∧
              infDraw u v ≤ g.weight u v := by
            obtain ⟨u, hu, hp⟩ := hrest
            exact ⟨u, List.mem_cons_of_mem _ hu, hp⟩
          simp [hS, hrest, hcons]
        · rw [if_neg (by simp [hrest])]
          rw [doInfection_eval]
          by_cases hbcase : (cur b = some CState.I ∨ cur b = some CState.A) ∧
              cur v = some CState.S ∧ v ∈ g.adj b ∧
              infDraw b v ≤ g.weight b v
          · have hcons : ∃ u ∈ b :: rest,
                (cur u = some CState.I ∨ cur u = some CState.A) ∧
                v ∈ g.adj u ∧ infDraw u v ≤ g.weight u v :=
              ⟨b, List.mem_cons_self b rest, hbcase.1, hbcase.2.2⟩
            simp [hS, hbcase, hcons]
          · have hcons : ¬ ∃ u ∈ b :: rest,
                (cur u = some CState.I ∨ cur u = some CState.A) ∧
                v ∈ g.adj u ∧ infDraw u v ≤ g.weight u v := by
              rintro ⟨u, hu, hp⟩
              rcases List.mem_cons.1 hu with rfl | hu2
              · exact hbcase ⟨hp.1, hS, hp.2⟩
              · exact hrest ⟨u, hu2, hp⟩
            have hb2 : ¬((cur b = some CState.I ∨ cur b = some CState.A) ∧
                v ∈ g.adj b ∧ infDraw b v ≤ g.weight b v) := fun h =>
              hbcase ⟨h.1, hS, h.2⟩
            simp [hb2, hrest]
            intro h1 _ h3 h4
            exact absurd ⟨h1, h3, h4⟩ hb2
      · simp [hS, doInfection_eval]

lemma infectionPass_eval (g : SimGraph) (cur : ℕ → Option CState)
    (infDraw : ℕ → ℕ → ℚ) (acc : ℕ → Option CState) (v : ℕ) :
    infectionPass g cur infDraw acc v =
      if cur v = some CState.S ∧ ∃ u ∈ g.nodes,
          (cur u = some CState.I ∨ cur u = some CState.A) ∧ v ∈ g.adj u ∧
          infDraw u v ≤ g.weight u v then some CState.E
      else acc v :=
  infection_foldl_eval g cur infDraw g.nodes acc v

lemma stepStates_eval (stateTransitions : CState → Distrib) (g : SimGraph)
    (progDraw : ℕ → ℚ) (infDraw : ℕ → ℕ → ℚ) (cur : ℕ → Option CState)
    (v : ℕ) :
    stepStates stateTransitions g progDraw infDraw cur v =
      if cur v = some CState.S ∧ ∃ u ∈ g.nodes,
          (cur u = some CState.I ∨ cur u = some CState.A) ∧ v ∈ g.adj u ∧
          infDraw u v ≤ g.weight u v then some CState.E
      else if v ∈ g.nodes then
        progressionValue stateTransitions g cur progDraw v
      else none := by
  rw [stepStates, infectionPass_eval, progressionPass_eval]

/-! ## Membership in the infection pass's write list -/

lemma infect_collect_foldl_mem (g : SimGraph) (cur : ℕ → Option CState)
    (infDraw : ℕ → ℕ → ℚ) (node : ℕ) (l : List ℕ) (acc : List ℕ) (v : ℕ) :
    (v ∈ l.foldl
        (fun acc2 neighbour =>
          if cur neighbour = some CState.S ∧
              infDraw node neighbour ≤ g.weight node neighbour then
            acc2 ++ [neighbour]
          else acc2)
        acc) ↔
      v ∈ acc ∨ (v ∈ l ∧ cur v = some CState.S ∧
        infDraw node v ≤ g.weight node v) := by
  induction l generalizing acc with
  | nil => simp
  | cons b rest ih =>
      rw [List.foldl_cons, ih]
      by_cases hvb : v = b
      · subst hvb
        by_cases hb : cur v = some CState.S ∧
            infDraw node v ≤ g.weight node v
        · simp [hb]
        · simp [hb]
      · by_cases hb : cur b = some CState.S ∧
            infDraw node b ≤ g.weight node b
        · simp [hb, hvb]
        · simp [hb, hvb]

lemma infectionWriteList_mem (g : SimGraph) (cur : ℕ → Option CState)
    (infDraw : ℕ → ℕ → ℚ) (v : ℕ) :
    v ∈ infectionWriteList g cur infDraw ↔
      cur v = some CState.S ∧ ∃ u ∈ g.nodes,
        (cur u = some CState.I ∨ cur u = some CState.A) ∧ v ∈ g.adj u ∧
        infDraw u v ≤ g.weight u v := by
  suffices h : ∀ (l : List ℕ) (acc : List ℕ),
      (v ∈ l.foldl
          (fun acc node =>
            if cur node = some CState.I ∨ cur node = some CState.A then
              (g.adj node).foldl
                (fun acc2 neighbour =>
                  if cur neighbour = some CState.S ∧
                      infDraw node neighbour ≤
                        g.weight node neighbour then
                    acc2 ++ [neighbour]
                  else acc2)
                acc
            else acc)
          acc) ↔
        v ∈ acc ∨ (cur v = some CState.S ∧ ∃ u ∈ l,
          (cur u = some CState.I ∨ cur u = some CState.A) ∧ v ∈ g.adj u ∧
          infDraw u v ≤ g.weight u v) by
    simpa [infectionWriteList] using h g.nodes []
  intro l
  induction l with
  | nil => simp
  | cons b rest ih =>
      intro acc
      rw [List.foldl_cons]
      by_cases hbI : cur b = some CState.I ∨ cur b = some CState.A
      · rw [if_pos hbI, ih, infect_collect_foldl_mem]
        constructor
        · rintro (((hacc | ⟨hmem, hS, hd⟩) | ⟨hS, u, hu, hp⟩))
          · exact Or.inl hacc
          · exact Or.inr ⟨hS, b, List.mem_cons_self b rest, hbI, hmem, hd⟩
          · exact Or.inr ⟨hS, u, List.mem_cons_of_mem _ hu, hp⟩
        · rintro (hacc | ⟨hS, u, hu, hIA, hmem, hd⟩)
          · exact Or.inl (Or.inl hacc)
          · rcases List.mem_cons.1 hu with rfl | hu2
            · exact Or.inl (Or.inr ⟨hmem, hS, hd⟩)
            · exact Or.inr ⟨hS, u, hu2, hIA, hmem, hd⟩
      · rw [if_neg hbI, ih]
        constructor
        · rintro (hacc | ⟨hS, u, hu, hp⟩)
          · exact Or.inl hacc
          · exact Or.inr ⟨hS, u, List.mem_cons_of_mem _ hu, hp⟩
        · rintro (hacc | ⟨hS, u, hu, hIA, hmem, hd⟩)
          · exact Or.inl hacc
          · rcases List.mem_cons.1 hu with rfl | hu2
            · exact absurd hIA hbI
            · exact Or.inr ⟨hS, u, hu2, hIA, hmem, hd⟩

/-! ## Totality of the progression values -/

lemma chooseGo_eq_fallback_or_some (ageGroup : String) (maxSum : ℚ)
    (fallback : Option CState) :
    ∀ (l : Distrib) (currSum : ℚ),
      chooseGo ageGroup maxSum fallback currSum l = fallback ∨
        ∃ c, chooseGo ageGroup maxSum fallback currSum l = some c := by
  intro l
  induction l with
  | nil =>
      intro currSum
      exact Or.inl rfl
  | cons hd rest ih =>
      intro currSum
      obtain ⟨value, p⟩ := hd
      rw [chooseGo]
      split
      · exact Or.inr ⟨value, rfl⟩
      · exact ih _

lemma minKey_isSome (d : Distrib) (h : d ≠ []) : ∃ c, minKey d = some c := by
  cases d with
  | nil => exact absurd rfl h
  | cons hd rest =>
      obtain ⟨value, p⟩ := hd
      exact ⟨_, rfl⟩

lemma chooseFromDistrib_isSome (ageGroup : String) (d : Distrib) (maxSum : ℚ)
    (h : d ≠ []) : ∃ c, chooseFromDistrib ageGroup d maxSum = some c := by
  rcases chooseGo_eq_fallback_or_some ageGroup maxSum (minKey d) d 0 with
    h1 | h1
  · rw [chooseFromDistrib, h1]
    exact minKey_isSome d h
  · exact h1

lemma progressionValue_isSome (stateTransitions : CState → Distrib)
    (g : SimGraph) (cur : ℕ → Option CState) (progDraw : ℕ → ℚ) (v : ℕ)
    (hv : ∃ s, cur v = some s)
    (hp : ∀ st, st ∉ [CState.R, CState.D, CState.S] →
      stateTransitions st ≠ []) :
    ∃ s, progressionValue stateTransitions g cur progDraw v = some s := by
  obtain ⟨s, hs⟩ := hv
  simp only [progressionValue, hs]
  split
  · exact chooseFromDistrib_isSome _ _ _ (hp s (by assumption))
  · exact ⟨s, rfl⟩

lemma initialStates_eval (nodes infected : List ℕ) (v : ℕ) :
    initialStates nodes infected v =
      if v ∈ infected then some CState.I
      else if v ∈ nodes then some CState.S else none :=
  foldl_updMap_eval (fun _ => some CState.I) infected _ v

lemma statesDict_total (stateTransitions : CState → Distrib)
    (graphAt : ℕ → SimGraph) (progDraw : ℕ → ℕ → ℚ)
    (infDraw : ℕ → ℕ → ℕ → ℚ) (ns infected : List ℕ)
    (hns : ∀ t, (graphAt t).nodes = ns)
    (hp : ∀ st, st ∉ [CState.R, CState.D, CState.S] →
      stateTransitions st ≠ [])
    (hinf : ∀ v ∈ infected, v ∈ ns) :
    ∀ t,
      (∀ v ∈ ns, ∃ s,
        statesDict stateTransitions graphAt progDraw infDraw
          (initialStates ns infected) t v = some s)
      ∧ (∀ v, v ∉ ns →
        statesDict stateTransitions graphAt progDraw infDraw
          (initialStates ns infected) t v = none) := by
  intro t
  induction t with
  | zero =>
      constructor
      · intro v hv
        rw [statesDict, initialStates_eval]
        by_cases hvi : v ∈ infected
        · exact ⟨_, by rw [if_pos hvi]⟩
        · exact ⟨_, by rw [if_neg hvi, if_pos hv]⟩
      · intro v hv
        rw [statesDict, initialStates_eval,
          if_neg (fun h => hv (hinf v h)), if_neg hv]
  | succ t ih =>
      constructor
      · intro v hv
        rw [statesDict, stepStates_eval]
        split
        · exact ⟨_, rfl⟩
        · rw [if_pos (by rw [hns t]; exact hv)]
          exact progressionValue_isSome stateTransitions (graphAt t) _ _ v
            (ih.1 v hv) hp
      · intro v hv
        rw [statesDict, stepStates_eval]
        rw [if_neg ?hcond, if_neg (by rw [hns t]; exact hv)]
        case hcond =>
          rintro ⟨hS, -⟩
          rw [ih.2 v hv] at hS
          exact Option.noConfusion hS

/-! ## Counting lemmas -/

lemma sum_map_add_nat (l : List CState) (f g : CState → ℕ) :
    (l.map (fun s => f s + g s)).sum = (l.map f).sum + (l.map g).sum := by
  induction l with
  | nil => rfl
  | cons a rest ih =>
      simp only [List.map_cons, List.sum_cons, ih]
      omega

lemma stateOrder_indicator_sum (x : Option CState) (s0 : CState)
    (hx : x = some s0) :
    (stateOrder.map (fun s => if x = some s then 1 else 0)).sum = 1 := by
  subst hx
  cases s0 <;> rfl

lemma countState_total_sum (sd : ℕ → Option CState) (ns : List ℕ)
    (h : ∀ v ∈ ns, ∃ s, sd v = some s) :
    (stateOrder.map (countState sd ns)).sum = ns.length := by
  induction ns with
  | nil => rfl
  | cons a l ih =>
      obtain ⟨s0, hs0⟩ := h a (List.mem_cons_self a l)
      have hl := ih (fun v hv => h v (List.mem_cons_of_mem _ hv))
      have hcount : ∀ s, countState sd (a :: l) s =
          (if sd a = some s then 1 else 0) + countState sd l s := by
        intro s
        rw [countState, countState, List.filter_cons]
        by_cases has : sd a = some s
        · simp [has]
          omega
        · simp [has]
      have hmap : stateOrder.map (countState sd (a :: l)) =
          stateOrder.map (fun s =>
            (if sd a = some s then 1 else 0) + countState sd l s) :=
        List.map_congr_left (fun s _ => hcount s)
      rw [hmap, sum_map_add_nat, stateOrder_indicator_sum (sd a) s0 hs0, hl]
      simp [Nat.add_comm]

/-! ## Concrete instances used by witnesses and counterexamples -/

/-- A transition table sending every progressing state to `H` with
probability 1. -/
def exTransitions : CState → Distrib := fun _ => [(CState.H, fun _ => 1)]

/-- A one-node graph with no edges. -/
def exGraphOne : SimGraph := ⟨[0], fun _ => [], fun _ _ => 1, fun _ => "a"⟩

/-- The state timeline of a run on the one-node graph with the single node
initially infected. -/
def exStatesOne : ℕ → ℕ → Option CState :=
  statesDict exTransitions (fun _ => exGraphOne) (fun _ _ => 1)
    (fun _ _ _ => 1) (initialStates [0] [0])

/-- A two-node graph with the single undirected edge 0–1 of weight 1. -/
def exGraphTwo : SimGraph :=
  ⟨[0, 1], fun v => if v = 0 then [1] else if v = 1 then [0] else [],
    fun _ _ => 1, fun _ => "a"⟩

/-- A snapshot on the two-node graph: node 0 symptomatic, node 1
susceptible. -/
def exCurTwo : ℕ → Option CState := fun v =>
  if v = 0 then some CState.I else if v = 1 then some CState.S else none

/-! ## Claim theorems about the two passes -/

/-- Claim C3 counterexample: on the two-node graph with node 0 symptomatic
and node 1 susceptible (edge weight 1, draw 0), node 1 is written by the
progression pass (which writes every node, copying `S` forward) and also by
the infection pass — the two write sets are not disjoint, and the progression
pass does write a node whose state at `t` is `S`. -/
theorem pass_write_sets_counterexample :
    1 ∈ progressionWriteList exGraphTwo
    ∧ 1 ∈ infectionWriteList exGraphTwo exCurTwo (fun _ _ => 0)
    ∧ exCurTwo 1 = some CState.S := by
  decide

/-- Claim C3 (amended): during processing of a timestep, the progression
pass writes exactly the full node list (states S, D, R being copied
forward), the infection pass writes only nodes whose state at `t` is `S`
(overwriting the copied `S` with `E`), and the union of the two write sets
is the full node set — but the infection pass's writes are a subset of the
progression pass's, not disjoint from them. -/
theorem pass_write_sets (g : SimGraph) (cur : ℕ → Option CState)
    (infDraw : ℕ → ℕ → ℚ)
    (hclosed : ∀ a ∈ g.nodes, ∀ b ∈ g.adj a, b ∈ g.nodes) :
    progressionWriteList g = g.nodes
    ∧ (∀ v ∈ infectionWriteList g cur infDraw, cur v = some CState.S)
    ∧ (∀ v, (v ∈ progressionWriteList g ∨
        v ∈ infectionWriteList g cur infDraw) ↔ v ∈ g.nodes) := by
  refine ⟨rfl, ?_, ?_⟩
  · intro v hv
    exact ((infectionWriteList_mem g cur infDraw v).1 hv).1
  · intro v
    constructor
    · rintro (hv | hv)
      · exact hv
      · obtain ⟨-, u, hu, -, hmem, -⟩ :=
          (infectionWriteList_mem g cur infDraw v).1 hv
        exact hclosed u hu v hmem
    · intro hv
      exact Or.inl hv

/-- Witness for C3 (amended) on the two-node graph. -/
theorem pass_write_sets_witness :
    progressionWriteList exGraphTwo = exGraphTwo.nodes
    ∧ (∀ v ∈ infectionWriteList exGraphTwo exCurTwo (fun _ _ => 0),
        exCurTwo v = some CState.S)
    ∧ (∀ v, (v ∈ progressionWriteList exGraphTwo ∨
        v ∈ infectionWriteList exGraphTwo exCurTwo (fun _ _ => 0)) ↔
        v ∈ exGraphTwo.nodes) :=
  pass_write_sets exGraphTwo exCurTwo (fun _ _ => 0) (by decide)

/-- Claim C4: after the simulation, every node of the graph holds exactly one
of the 7 compartments at every timestep `t ≤ time_horizon` (and nodes outside
the graph are absent from every timestep dict), so the 7 per-timestep
compartment counts sum to the number of nodes. -/
theorem simulation_states_total (stateTransitions : CState → Distrib)
    (graphAt : ℕ → SimGraph) (progDraw : ℕ → ℕ → ℚ)
    (infDraw : ℕ → ℕ → ℕ → ℚ) (ns infected : List ℕ) (timeHorizon : ℕ)
    (hns : ∀ t, (graphAt t).nodes = ns)
    (hp : ∀ st, st ∉ [CState.R, CState.D, CState.S] →
      stateTransitions st ≠ [])
    (hinf : ∀ v ∈ infected, v ∈ ns) :
    ∀ t ≤ timeHorizon,
      (∀ v ∈ ns, ∃ s,
        statesDict stateTransitions graphAt progDraw infDraw
          (initialStates ns infected) t v = some s)
      ∧ (∀ v, v ∉ ns →
        statesDict stateTransitions graphAt progDraw infDraw
          (initialStates ns infected) t v = none)
      ∧ (stateOrder.map (countState
          (statesDict stateTransitions graphAt progDraw infDraw
            (initialStates ns infected) t) ns)).sum = ns.length := by
  intro t _
  obtain ⟨h1, h2⟩ := statesDict_total stateTransitions graphAt progDraw
    infDraw ns infected hns hp hinf t
  exact ⟨h1, h2, countState_total_sum _ ns h1⟩

/-- Witness for C4: the one-node run at timestep 1 of horizon 1. -/
theorem simulation_states_total_witness :
    (∀ v ∈ ([0] : List ℕ), ∃ s, exStatesOne 1 v = some s)
    ∧ (∀ v, v ∉ ([0] : List ℕ) → exStatesOne 1 v = none)
    ∧ (stateOrder.map (countState (exStatesOne 1) [0])).sum =
        ([0] : List ℕ).length :=
  simulation_states_total exTransitions (fun _ => exGraphOne)
    (fun _ _ => 1) (fun _ _ _ => 1) [0] [0] 1
    (fun _ => rfl) (fun _ _ => List.cons_ne_nil _ _) (by decide) 1
    (le_refl 1)

/-- Claim C5: a node in D (resp. R) at `t` is in D (resp. R) at `t+1`; a node
in S at `t` is in S or E at `t+1`, and in E exactly when some neighbour over
an edge present during timestep `t` was in I or A at `t` and drew a uniform
value at most that edge's weight; no other transition writes E over an
S-origin node. -/
theorem step_transition_rules (stateTransitions : CState → Distrib)
    (g : SimGraph) (progDraw : ℕ → ℚ) (infDraw : ℕ → ℕ → ℚ)
    (cur : ℕ → Option CState) (u : ℕ) (hu : u ∈ g.nodes)
    (hadj : ∀ a ∈ g.nodes, ∀ b ∈ g.adj a, a ∈ g.adj b)
    (hclosed : ∀ a ∈ g.nodes, ∀ b ∈ g.adj a, b ∈ g.nodes) :
    (cur u = some CState.D →
      stepStates stateTransitions g progDraw infDraw cur u = some CState.D)
    ∧ (cur u = some CState.R →
      stepStates stateTransitions g progDraw infDraw cur u = some CState.R)
    ∧ (cur u = some CState.S →
      (stepStates stateTransitions g progDraw infDraw cur u = some CState.S ∨
        stepStates stateTransitions g progDraw infDraw cur u = some CState.E)
      ∧ (stepStates stateTransitions g progDraw infDraw cur u =
            some CState.E ↔
          ∃ w ∈ g.adj u,
            (cur w = some CState.I ∨ cur w = some CState.A) ∧
            infDraw w u ≤ g.weight w u)) := by
  refine ⟨?_, ?_, ?_⟩
  · intro hD
    rw [stepStates_eval, if_neg (by simp [hD]), if_pos hu]
    simp only [progressionValue, hD]
    rw [if_neg (by decide)]
  · intro hR
    rw [stepStates_eval, if_neg (by simp [hR]), if_pos hu]
    simp only [progressionValue, hR]
    rw [if_neg (by decide)]
  · intro hS
    rw [stepStates_eval]
    by_cases hC : cur u = some CState.S ∧ ∃ w ∈ g.nodes,
        (cur w = some CState.I ∨ cur w = some CState.A) ∧ u ∈ g.adj w ∧
        infDraw w u ≤ g.weight w u
    · rw [if_pos hC]
      refine ⟨Or.inr rfl, ?_, fun _ => rfl⟩
      intro _
      obtain ⟨-, w, hw, hIA, hmem, hd⟩ := hC
      exact ⟨w, hadj w hw u hmem, hIA, hd⟩
    · rw [if_neg hC, if_pos hu]
      have hval : progressionValue stateTransitions g cur progDraw u =
          some CState.S := by
        simp only [progressionValue, hS]
        rw [if_neg (by decide)]
      rw [hval]
      refine ⟨Or.inl rfl, ?_, ?_⟩
      · intro h
        simp at h
      · rintro ⟨w, hw, hIA, hd⟩
        exact absurd
          ⟨hS, w, hclosed u hu w hw, hIA, hadj u hu w hw, hd⟩ hC

/-- Witness for C5: node 1 of the two-node graph, susceptible next to the
symptomatic node 0 with draw 0 and weight 1. -/
theorem step_transition_rules_witness :
    (exCurTwo 1 = some CState.D →
      stepStates exTransitions exGraphTwo (fun _ => 1) (fun _ _ => 0)
        exCurTwo 1 = some CState.D)
    ∧ (exCurTwo 1 = some CState.R →
      stepStates exTransitions exGraphTwo (fun _ => 1) (fun _ _ => 0)
        exCurTwo 1 = some CState.R)
    ∧ (exCurTwo 1 = some CState.S →
      (stepStates exTransitions exGraphTwo (fun _ => 1) (fun _ _ => 0)
          exCurTwo 1 = some CState.S ∨
        stepStates exTransitions exGraphTwo (fun _ => 1) (fun _ _ => 0)
          exCurTwo 1 = some CState.E)
      ∧ (stepStates exTransitions exGraphTwo (fun _ => 1) (fun _ _ => 0)
            exCurTwo 1 = some CState.E ↔
          ∃ w ∈ exGraphTwo.adj 1,
            (exCurTwo w = some CState.I ∨ exCurTwo w = some CState.A) ∧
            (fun _ _ => (0 : ℚ)) w 1 ≤ exGraphTwo.weight w 1)) :=
  step_transition_rules exTransitions exGraphTwo (fun _ => 1)
    (fun _ _ => 0) exCurTwo 1 (by decide) (by decide) (by decide)

/-! ## Claim theorems about the reporting series -/

lemma exStatesOne_zero : exStatesOne 0 0 = some CState.I := by
  rw [exStatesOne, statesDict, initialStates_eval]
  rfl

lemma exStatesOne_one : exStatesOne 1 0 = some CState.H := by
  have hcur : exStatesOne 0 0 = some CState.I := exStatesOne_zero
  show stepStates exTransitions exGraphOne (fun _ => 1) (fun _ _ => 1)
      (exStatesOne 0) 0 = some CState.H
  rw [stepStates_eval]
  rw [if_neg ?hneg, if_pos (by decide : (0 : ℕ) ∈ exGraphOne.nodes)]
  case hneg =>
    rintro ⟨hS, -⟩
    rw [hcur] at hS
    exact CState.noConfusion (Option.some.inj hS)
  simp only [progressionValue, hcur]
  rw [if_pos (by decide)]
  rw [chooseFromDistrib]
  rw [show exTransitions CState.I = [(CState.H, fun _ => 1)] from rfl]
  rw [chooseGo]
  rw [if_pos (by norm_num)]

/-- Claim C1 counterexample: a real run on the one-node graph with horizon 1
and the node initially infected.  The node is in `I` at timestep 0 and in `H`
at timestep 1; `get_results` returns `[0]` for compartment `I`, so its 0-th
entry is not the count at timestep `7·0 = 0` (which is 1) — the series starts
at timestep 1, not 0. -/
theorem get_results_sampling_counterexample :
    (getResults exStatesOne [0] 1 CState.I).getD 0 0 = 0
    ∧ countState (exStatesOne (7 * 0)) [0] CState.I = 1 := by
  constructor
  · rw [getResults, show reportSteps 1 = [1] from rfl]
    simp [countState, exStatesOne_one]
  · simp [countState, exStatesOne_zero]

/-- Claim C1 (amended): the reporting series of `get_results` has
`⌈time_horizon / 7⌉` entries and its `k`-th entry is the compartment count at
timestep `7·k + 1` (not `7·k`); every sampled timestep is at most
`time_horizon`. -/
theorem get_results_sampling (sd : ℕ → ℕ → Option CState) (ns : List ℕ)
    (timeHorizon : ℕ) (s : CState) (k : ℕ)
    (hk : k < (timeHorizon + 6) / 7) :
    (getResults sd ns timeHorizon s).length = (timeHorizon + 6) / 7
    ∧ (getResults sd ns timeHorizon s).getD k 0 =
        countState (sd (1 + 7 * k)) ns s
    ∧ 1 + 7 * k ≤ timeHorizon := by
  have hlen : (getResults sd ns timeHorizon s).length =
      (timeHorizon + 6) / 7 := by
    simp [getResults, reportSteps]
  refine ⟨hlen, ?_, by omega⟩
  have hk2 : k < (getResults sd ns timeHorizon s).length := by
    rw [hlen]
    exact hk
  rw [List.getD_eq_getElem (getResults sd ns timeHorizon s) 0 hk2]
  simp [getResults, reportSteps]

/-- Witness for C1 (amended): the one-node run of horizon 1 reports one
entry, sampled at timestep 1. -/
theorem get_results_sampling_witness :
    (getResults exStatesOne [0] 1 CState.I).length = (1 + 6) / 7
    ∧ (getResults exStatesOne [0] 1 CState.I).getD 0 0 =
        countState (exStatesOne (1 + 7 * 0)) [0] CState.I
    ∧ 1 + 7 * 0 ≤ 1 :=
  get_results_sampling exStatesOne [0] 1 CState.I 0 (by decide)

/-! ## Claim theorem about multi-run aggregation -/

/-- Per-run series A for the C2 failing input (population 5, one seeded
infection, horizon 8, hence reporting steps at timesteps 1 and 8): at step 1
the seed has progressed I→H and nobody was infected (S = 4, H = 1); by step 8
the seed has recovered and two nodes freshly exposed at timestep 7 are still
E (S = 2, E = 2, R = 1).  Every reporting step sums to 5. -/
def exRunA : CState → List ℕ := fun s =>
  match s with
  | CState.S => [4, 2]
  | CState.E => [0, 2]
  | CState.H => [1, 0]
  | CState.R => [0, 1]
  | _ => [0, 0]

/-- Per-run series B for the C2 failing input: step 1 as in run A; by step 8
one node infected at timestep 6 has moved E→A and the seed has recovered
(S = 3, A = 1, R = 1).  Every reporting step sums to 5. -/
def exRunB : CState → List ℕ := fun s =>
  match s with
  | CState.S => [4, 3]
  | CState.A => [0, 1]
  | CState.H => [1, 0]
  | CState.R => [0, 1]
  | _ => [0, 0]

/-- Claim C2: with `time_horizon = 8` the series has 2 reporting steps but
the repair loop `range(time_horizon // 7)` covers only step 0.  Averaging
the two runs above (each of which sums to the population 5 at every step)
leaves the uncovered step 1 at total 4 ≠ 5 after `run_multiple` returns:
half-even rounding maps the S mean 2.5 to 2 and the A mean 0.5 to 0, and no
repair runs there.  Step 0, which the loop does cover, sums to 5. -/
theorem run_multiple_conservation_gap :
    (stateOrder.map
      (fun s => (runMultiple 5 8 [exRunA, exRunB] s).getD 0 0)).sum = 5
    ∧ (stateOrder.map
      (fun s => (runMultiple 5 8 [exRunA, exRunB] s).getD 1 0)).sum = 4
    ∧ (runMultiple 5 8 [exRunA, exRunB] CState.S).length = 2
    ∧ (stateOrder.map (fun s => (exRunA s).getD 0 0)).sum = 5
    ∧ (stateOrder.map (fun s => (exRunA s).getD 1 0)).sum = 5
    ∧ (stateOrder.map (fun s => (exRunB s).getD 0 0)).sum = 5
    ∧ (stateOrder.map (fun s => (exRunB s).getD 1 0)).sum = 5 := by
  decide

end Covid
